import Mathlib

/-!
Verification of the MixMerge audio-merge subsystem of this repository:
a shallow embedding of the storage layer (`DatabaseStorage` in
server/customAuth.ts), the HTTP route handlers for the audio routes
(server/routes.ts), and the asynchronous merge-job background execution,
together with theorems settling the specified properties.

Machine integers: ids, sizes, timestamps are modelled as `Nat`;
fractional encoder progress as `Rat` with an explicit floor, mirroring
`Math.floor` in the route code.
-/

/-! ## Data model

Row types mirror the columns used by server/customAuth.ts and
server/routes.ts (the shared schema file itself is not under src/;
the field list below is exactly the set of fields those two files
read and write, with the spec's stated domains). -/

structure AudioFile where
  id : Nat
  filename : String
  originalName : String
  size : Nat
  duration : Nat
  mimeType : String
  uploadedBy : String
  uploadedAt : Nat
deriving DecidableEq

inductive JobStatus where
  | pending
  | processing
  | completed
  | failed
deriving DecidableEq

structure MergeJob where
  id : Nat
  name : String
  status : JobStatus
  progress : Nat
  outputFile : Option String
  removeSilence : Bool
  outputFormat : String
  createdBy : String
  createdAt : Nat
  completedAt : Option Nat
deriving DecidableEq

structure MergeJobFile where
  jobId : Nat
  audioFileId : Nat
deriving DecidableEq

/-- The durable record store: the three MixMerge tables. -/
structure Store where
  audioFiles : List AudioFile
  mergeJobs : List MergeJob
  mergeJobFiles : List MergeJobFile
deriving DecidableEq

/-! ## Storage layer (DatabaseStorage, server/customAuth.ts) -/

/-- `getAudioFiles(userId)`: select, filtered by owner when a user id is
given, ordered by `uploadedAt` descending. -/
def getAudioFiles (s : Store) (userId : Option String) : List AudioFile :=
  let rows := match userId with
    | some u => s.audioFiles.filter (fun f => f.uploadedBy == u)
    | none => s.audioFiles
  List.insertionSort (fun a b => b.uploadedAt ≤ a.uploadedAt) rows

/-- `getAudioFile(id)`: select a single row by id. -/
def getAudioFile (s : Store) (id : Nat) : Option AudioFile :=
  s.audioFiles.find? (fun f => f.id == id)

/-- `createAudioFile(file)`: insert and return the new row. -/
def createAudioFile (s : Store) (f : AudioFile) : Store × AudioFile :=
  ({ s with audioFiles := s.audioFiles ++ [f] }, f)

/-- `deleteAudioFile(id, userId)`: delete where the id and the owner both
match; reports whether any row was deleted. -/
def deleteAudioFile (s : Store) (id : Nat) (userId : String) : Store × Bool :=
  let hit := s.audioFiles.filter (fun f => f.id == id && f.uploadedBy == userId)
  ({ s with audioFiles := s.audioFiles.filter (fun f => !(f.id == id && f.uploadedBy == userId)) },
   !hit.isEmpty)

/-- `getMergeJobs(userId)`: select, filtered by owner when a user id is
given, ordered by `createdAt` descending. -/
def getMergeJobs (s : Store) (userId : Option String) : List MergeJob :=
  let rows := match userId with
    | some u => s.mergeJobs.filter (fun j => j.createdBy == u)
    | none => s.mergeJobs
  List.insertionSort (fun a b => b.createdAt ≤ a.createdAt) rows

/-- `getMergeJob(id)`: select a single row by id. -/
def getMergeJob (s : Store) (id : Nat) : Option MergeJob :=
  s.mergeJobs.find? (fun j => j.id == id)

/-- Modelled from the spec: the MergeJob table schema (shared/schema is
not under src/) supplies the defaults for columns `createMergeJob` does
not pass: per the spec a job is created in `pending` state with
`progress` starting at 0, `outputFile` set only on completion and
`completedAt` set only on completion; `id` and `createdAt` are assigned
by the store (passed in here). -/
def mkMergeJob (freshId now : Nat) (name : String) (status : JobStatus)
    (removeSilence : Bool) (outputFormat : String) (createdBy : String) : MergeJob :=
  { id := freshId, name := name, status := status, progress := 0,
    outputFile := none, removeSilence := removeSilence,
    outputFormat := outputFormat, createdBy := createdBy,
    createdAt := now, completedAt := none }

/-- `createMergeJob(job)`: insert and return the new row (`freshId` and
`now` stand for the store-assigned id and creation timestamp). -/
def createMergeJob (s : Store) (freshId now : Nat) (name : String) (status : JobStatus)
    (removeSilence : Bool) (outputFormat : String) (createdBy : String) : Store × MergeJob :=
  let j := mkMergeJob freshId now name status removeSilence outputFormat createdBy
  ({ s with mergeJobs := s.mergeJobs ++ [j] }, j)

/-- A `Partial<InsertMergeJob>` as used by the route code: exactly the
columns the merge handler ever sets. `none` means the key is absent and
the stored column is left unchanged. -/
structure MergeJobUpdate where
  status : Option JobStatus
  progress : Option Nat
  outputFile : Option String
  completedAt : Option Nat
deriving DecidableEq

/-- Apply a partial update to one row (`UPDATE ... SET` on the provided
columns only). -/
def applyUpdate (u : MergeJobUpdate) (j : MergeJob) : MergeJob :=
  { j with
    status := u.status.getD j.status
    progress := u.progress.getD j.progress
    outputFile := match u.outputFile with
      | some f => some f
      | none => j.outputFile
    completedAt := match u.completedAt with
      | some t => some t
      | none => j.completedAt }

/-- `updateMergeJob(id, job)`: update the rows matching the id and return
the updated row, or `none` (and an unchanged store) when no row matches. -/
def updateMergeJob (s : Store) (id : Nat) (u : MergeJobUpdate) : Store × Option MergeJob :=
  match s.mergeJobs.find? (fun j => j.id == id) with
  | none => (s, none)
  | some j =>
    ({ s with mergeJobs := s.mergeJobs.map (fun k => if k.id == id then applyUpdate u k else k) },
     some (applyUpdate u j))

/-- `addJobFiles(jobId, fileIds)`: insert one link row per file id, in
input order. -/
def addJobFiles (s : Store) (jobId : Nat) (fileIds : List Nat) : Store :=
  { s with mergeJobFiles :=
      s.mergeJobFiles ++ fileIds.map (fun fid => { jobId := jobId, audioFileId := fid }) }

/-- The set of file paths present in the uploads directory, as a list of
path strings. -/
def UploadsFs := List String

/-- Modelled from the spec: `deleteFile` (server/audio, not under src/)
removes the file at the given path from storage. -/
def deleteUploadsFile (fs : UploadsFs) (p : String) : UploadsFs :=
  fs.filter (fun q => !(q == p))

/-- `deleteMergeJob(id, userId)`: returns false when the job is missing or
owned by someone else; otherwise removes the output file from storage if
present, deletes the job row, and (per the schema cascade the code relies
on) its link rows. -/
def deleteMergeJob (s : Store) (fs : UploadsFs) (id : Nat) (userId : String) :
    Store × UploadsFs × Bool :=
  match s.mergeJobs.find? (fun j => j.id == id) with
  | none => (s, fs, false)
  | some job =>
    if job.createdBy == userId then
      let fs' := match job.outputFile with
        | some f => deleteUploadsFile fs ("uploads/" ++ f)
        | none => fs
      ({ s with
          mergeJobs := s.mergeJobs.filter (fun j => !(j.id == id)),
          mergeJobFiles := s.mergeJobFiles.filter (fun l => !(l.jobId == id)) },
       fs', true)
    else (s, fs, false)

/-- The ordered list of audio-file ids linked to a job. -/
def linksOf (s : Store) (jobId : Nat) : List Nat :=
  (s.mergeJobFiles.filter (fun l => l.jobId == jobId)).map (fun l => l.audioFileId)

/-! ## Route handlers (server/routes.ts, /api/mixmerge) -/

/-- Result of DELETE /api/mixmerge/files/:id. -/
inductive DeleteFileResult where
  | notFound
  | accessDenied
  | ok
deriving DecidableEq

/-- DELETE /api/mixmerge/files/:id: look the file up (404 when absent),
attempt the owner-scoped record deletion (403 when it deletes nothing),
and only then remove the backing file from the uploads directory. -/
def deleteAudioFileRoute (s : Store) (fs : UploadsFs) (userId : String) (id : Nat) :
    DeleteFileResult × Store × UploadsFs :=
  match getAudioFile s id with
  | none => (.notFound, s, fs)
  | some file =>
    let r := deleteAudioFile s id userId
    if r.2 then
      (.ok, r.1, deleteUploadsFile fs ("uploads/" ++ file.filename))
    else (.accessDenied, r.1, fs)

/-- Result of GET /api/mixmerge/jobs/:id. -/
inductive GetJobResult where
  | notFound
  | ok (job : MergeJob)
deriving DecidableEq

/-- GET /api/mixmerge/jobs/:id: the handler authenticates the requester
(`requester` below) but reads only the id from the request; the row is
returned whenever it exists. -/
def getMergeJobRoute (s : Store) (requester : String) (id : Nat) : GetJobResult :=
  match getMergeJob s id with
  | none => .notFound
  | some job => .ok job

/-- Result of DELETE /api/mixmerge/jobs/:id. -/
inductive DeleteJobResult where
  | notFoundOrDenied
  | ok
deriving DecidableEq

/-- DELETE /api/mixmerge/jobs/:id: delegates to `deleteMergeJob`; a false
return is surfaced as 404 "Job not found or access denied". -/
def deleteMergeJobRoute (s : Store) (fs : UploadsFs) (userId : String) (id : Nat) :
    DeleteJobResult × Store × UploadsFs :=
  let r := deleteMergeJob s fs id userId
  if r.2.2 then (.ok, r.1, r.2.1) else (.notFoundOrDenied, s, fs)

/-- The JSON body of POST /api/mixmerge/merge. `fileIds = none` models an
absent or non-array value; the other fields model absent (`none`) versus
supplied values, with JavaScript falsiness of the empty string reflected
where the handler uses `||`. -/
structure MergeRequestBody where
  fileIds : Option (List Nat)
  removeSilence : Option Bool
  outputFormat : Option String
  name : Option String
deriving DecidableEq

/-- The `x || dflt` defaulting the handler applies to `name` and
`outputFormat` (empty string is falsy). -/
def strOrDefault (v : Option String) (dflt : String) : String :=
  match v with
  | some x => if x == "" then dflt else x
  | none => dflt

/-- The validation gate of POST /api/mixmerge/merge:
`!fileIds || !Array.isArray(fileIds) || fileIds.length === 0`. -/
def mergeRequestValid (b : MergeRequestBody) : Bool :=
  match b.fileIds with
  | none => false
  | some ids => !ids.isEmpty

/-- The payload captured by the `setImmediate` closure that the merge
handler schedules: the job id and the raw file id list. -/
structure ScheduledMerge where
  jobId : Nat
  fileIds : List Nat
deriving DecidableEq

/-- HTTP result of POST /api/mixmerge/merge. -/
inductive MergeResponse where
  | badRequest
  | ok (job : MergeJob)
deriving DecidableEq

/-- Everything observable about one run of the merge handler's
synchronous part: the response, the store when the response is sent, the
background work scheduled (if any), and the trace of store states after
each awaited storage call. -/
structure PostMergeOutcome where
  response : MergeResponse
  store : Store
  scheduled : Option ScheduledMerge
  trace : List Store
deriving DecidableEq

/-- POST /api/mixmerge/merge, synchronous part: validate, insert the job
row (status "pending", outputFormat defaulted to "mp3", removeSilence
defaulted to false, name defaulted to "Untitled Merge"), insert the link
rows with a second call, schedule the background merge, respond with the
job. -/
def postMerge (s : Store) (freshId now : Nat) (userId : String) (b : MergeRequestBody) :
    PostMergeOutcome :=
  match b.fileIds with
  | none => { response := .badRequest, store := s, scheduled := none, trace := [s] }
  | some ids =>
    if ids.isEmpty then
      { response := .badRequest, store := s, scheduled := none, trace := [s] }
    else
      let r := createMergeJob s freshId now (strOrDefault b.name "Untitled Merge") .pending
        (b.removeSilence.getD false) (strOrDefault b.outputFormat "mp3") userId
      let s2 := addJobFiles r.1 r.2.id ids
      { response := .ok r.2, store := s2,
        scheduled := some { jobId := r.2.id, fileIds := ids },
        trace := [s, r.1, s2] }

/-! ## Background merge execution (the `setImmediate` closure) -/

/-- Math.floor applied to the encoder's fractional progress value, as in
the handler's progress callback. -/
def floorPct (p : Rat) : Nat := (Int.floor p).toNat

/-- Modelled from the spec: one run of `mergeAudioFiles` (server/audio is
not under src/). Per the spec the encoder reports fractional progress via
a callback "invoked periodically during encoding (monotonically
increasing 0→100)" and then either resolves or fails with an
`EncodingError`; a run is the sequence of values passed to the callback,
tagged with the outcome. -/
inductive EncoderRun where
  | success (reports : List Rat)
  | failure (reports : List Rat)
deriving DecidableEq

def EncoderRun.reports : EncoderRun → List Rat
  | .success r => r
  | .failure r => r

/-- Modelled from the spec: well-formedness of an encoder run, from the
spec's contract on the progress callback — values are monotonically
increasing within the 0–100 range. -/
def EncoderRun.wf (r : EncoderRun) : Prop :=
  List.Chain' (fun p q => p ≤ q) r.reports ∧ ∀ p ∈ r.reports, 0 ≤ p ∧ p ≤ 100

instance (r : EncoderRun) : Decidable r.wf :=
  inferInstanceAs (Decidable (List.Chain' (fun p q => p ≤ q) r.reports ∧
    ∀ p ∈ r.reports, 0 ≤ p ∧ p ≤ 100))

/-- One storage write performed by the background closure. -/
inductive BgEvent where
  | setProcessing
  | reportProgress (p : Rat)
  | setCompleted (outputFilename : String) (now : Nat)
  | setFailed
deriving DecidableEq

/-- The partial update each background write passes to
`updateMergeJob`. -/
def eventUpdate : BgEvent → MergeJobUpdate
  | .setProcessing =>
    { status := some .processing, progress := none, outputFile := none, completedAt := none }
  | .reportProgress p =>
    { status := none, progress := some (floorPct p), outputFile := none, completedAt := none }
  | .setCompleted f t =>
    { status := some .completed, progress := some 100, outputFile := some f, completedAt := some t }
  | .setFailed =>
    { status := some .failed, progress := none, outputFile := none, completedAt := none }

/-- Apply one background write to the store. -/
def applyBgEvent (jobId : Nat) (s : Store) (e : BgEvent) : Store :=
  (updateMergeJob s jobId (eventUpdate e)).1

/-- The ordered storage writes one background run performs: the
processing transition, the progress callbacks, then the terminal write —
`setCompleted` when the encoder resolves, `setFailed` (from the `catch`
block) when it throws. -/
def bgEvents (outName : String) (now : Nat) : EncoderRun → List BgEvent
  | .success reports =>
    .setProcessing :: (reports.map BgEvent.reportProgress ++ [.setCompleted outName now])
  | .failure reports =>
    .setProcessing :: (reports.map BgEvent.reportProgress ++ [.setFailed])

/-- Every store state observable during one background run, including the
state before the first write. -/
def bgObservable (jobId : Nat) (outName : String) (now : Nat) (run : EncoderRun) (s : Store) :
    List Store :=
  (bgEvents outName now run).scanl (applyBgEvent jobId) s

/-- The fallible body of the background closure (the code inside `try`):
transitions the job to processing, applies the progress callbacks, and
either completes the job (`Except.ok`) or throws (`Except.error`,
carrying the store at the moment of the throw). -/
def runMergeBody (jobId : Nat) (outName : String) (now : Nat) (run : EncoderRun) (s : Store) :
    Except Store Store :=
  let s1 := applyBgEvent jobId s .setProcessing
  match run with
  | .success reports =>
    let s2 := reports.foldl (fun t p => applyBgEvent jobId t (.reportProgress p)) s1
    .ok (applyBgEvent jobId s2 (.setCompleted outName now))
  | .failure reports =>
    let s2 := reports.foldl (fun t p => applyBgEvent jobId t (.reportProgress p)) s1
    .error s2

/-- The full background closure including its `catch` handler: any throw
from the body is caught and converted into a `status = failed` update, so
the closure always returns a store and never propagates the exception. -/
def runMergeBackground (jobId : Nat) (outName : String) (now : Nat) (run : EncoderRun)
    (s : Store) : Store :=
  match runMergeBody jobId outName now run s with
  | .ok t => t
  | .error t => applyBgEvent jobId t .setFailed

/-! ## Helper lemmas -/

/-- Job-level effect of one background write. -/
def applyUpd (e : BgEvent) (j : MergeJob) : MergeJob :=
  applyUpdate (eventUpdate e) j

theorem applyUpd_processing (j : MergeJob) :
    applyUpd .setProcessing j = { j with status := .processing } := rfl

theorem applyUpd_report (p : Rat) (j : MergeJob) :
    applyUpd (.reportProgress p) j = { j with progress := floorPct p } := rfl

theorem applyUpd_completed (f : String) (t : Nat) (j : MergeJob) :
    applyUpd (.setCompleted f t) j =
      { j with status := .completed, progress := 100,
               outputFile := some f, completedAt := some t } := rfl

theorem applyUpd_failed (j : MergeJob) :
    applyUpd .setFailed j = { j with status := .failed } := rfl

theorem applyUpdate_id (u : MergeJobUpdate) (j : MergeJob) :
    (applyUpdate u j).id = j.id := rfl

/-- Searching an updated table by the updated id finds the updated row. -/
theorem find?_update (l : List MergeJob) (id : Nat) (u : MergeJobUpdate) :
    (l.map (fun k => if k.id == id then applyUpdate u k else k)).find? (fun j => j.id == id)
      = (l.find? (fun j => j.id == id)).map (applyUpdate u) := by
  induction l with
  | nil => simp
  | cons k t ih =>
    by_cases hk : k.id == id
    · have hid : (applyUpdate u k).id = k.id := rfl
      simp only [List.map_cons, hk, if_true]
      rw [List.find?_cons_of_pos, List.find?_cons_of_pos] <;>
        simp [hid, hk]
    · simp only [List.map_cons, hk, if_false, Bool.false_eq_true]
      rw [List.find?_cons_of_neg, List.find?_cons_of_neg]
      · exact ih
      · simp [hk]
      · simp [hk]

/-- Looking the job up after one background write. -/
theorem getMergeJob_after_event (s : Store) (jobId : Nat) (e : BgEvent) (j : MergeJob)
    (h : getMergeJob s jobId = some j) :
    getMergeJob (applyBgEvent jobId s e) jobId = some (applyUpd e j) := by
  unfold getMergeJob at h ⊢
  unfold applyBgEvent updateMergeJob
  rw [h]
  dsimp only
  rw [find?_update, h]
  rfl

/-- Looking the job up along a run of background writes commutes with the
job-level updates. -/
theorem filterMap_lookup_scanl (jobId : Nat) (events : List BgEvent) (s : Store) (j : MergeJob)
    (h : getMergeJob s jobId = some j) :
    (events.scanl (applyBgEvent jobId) s).filterMap (fun t => getMergeJob t jobId)
      = events.scanl (fun x e => applyUpd e x) j := by
  induction events generalizing s j with
  | nil => simp [List.scanl, h]
  | cons e es ih =>
    simp only [List.scanl, List.filterMap_cons, h]
    exact congrArg (j :: ·) (ih _ _ (getMergeJob_after_event s jobId e j h))

/-- Looking the job up after a fold of background writes. -/
theorem getMergeJob_after_foldl (jobId : Nat) (reports : List Rat) (s : Store) (j : MergeJob)
    (h : getMergeJob s jobId = some j) :
    getMergeJob (reports.foldl (fun t p => applyBgEvent jobId t (.reportProgress p)) s) jobId
      = some (reports.foldl (fun x p => applyUpd (.reportProgress p) x) j) := by
  induction reports generalizing s j with
  | nil => simpa using h
  | cons p ps ih =>
    simp only [List.foldl_cons]
    exact ih _ _ (getMergeJob_after_event s jobId (.reportProgress p) j h)

/-- The job-level scanl over a progress phase, in closed form. -/
theorem scanl_reportEvents (reports : List Rat) (j : MergeJob) :
    (reports.map BgEvent.reportProgress).scanl (fun x e => applyUpd e x) j
      = j :: reports.map (fun p => { j with progress := floorPct p }) := by
  induction reports generalizing j with
  | nil => rfl
  | cons p ps ih =>
    simp only [List.map_cons, List.scanl, applyUpd_report, ih]

/-- The job-level foldl over a progress phase: the final row carries the
last reported (floored) value, or the previous value when no report was
made. -/
theorem foldl_reportUpd (reports : List Rat) (j : MergeJob) :
    reports.foldl (fun x p => applyUpd (.reportProgress p) x) j
      = { j with progress := (reports.map floorPct).getLastD j.progress } := by
  induction reports generalizing j with
  | nil => rfl
  | cons p ps ih =>
    simp only [List.foldl_cons]
    rw [ih]
    simp only [applyUpd_report, List.map_cons, List.getLastD_cons]

/-- Scanning over a concatenation splits at the boundary. -/
theorem scanl_append_split {α β : Type} (f : β → α → β) (b : β) (l1 l2 : List α) :
    List.scanl f b (l1 ++ l2)
      = List.scanl f b l1 ++ (List.scanl f (l1.foldl f b) l2).tail := by
  induction l1 generalizing b with
  | nil =>
    cases l2 with
    | nil => rfl
    | cons a t => rfl
  | cons a l1 ih =>
    rw [List.cons_append, List.scanl_cons, List.scanl_cons, List.foldl_cons, ih,
      List.cons_append]
    simp

/-- Appending a fresh row and then searching for it finds it. -/
theorem find?_append_fresh {α : Type} (p : α → Bool) (l : List α) (x : α)
    (h : ∀ a ∈ l, p a = false) (hx : p x = true) :
    (l ++ [x]).find? p = some x := by
  induction l with
  | nil => simp [List.find?, hx]
  | cons a t ih =>
    have ha : p a = false := h a (by simp)
    simp only [List.cons_append]
    rw [List.find?_cons_of_neg]
    · exact ih fun b hb => h b (by simp [hb])
    · simp [ha]

/-! ## Concrete fixtures for witnesses and counterexamples -/

def emptyStore : Store := { audioFiles := [], mergeJobs := [], mergeJobFiles := [] }

def fileA : AudioFile :=
  { id := 1, filename := "a.mp3", originalName := "A.mp3", size := 100, duration := 2,
    mimeType := "audio/mpeg", uploadedBy := "alice", uploadedAt := 10 }

def fileB : AudioFile :=
  { id := 2, filename := "b.mp3", originalName := "B.mp3", size := 200, duration := 3,
    mimeType := "audio/mpeg", uploadedBy := "alice", uploadedAt := 20 }

def fileC : AudioFile :=
  { id := 3, filename := "c.mp3", originalName := "C.mp3", size := 300, duration := 4,
    mimeType := "audio/mpeg", uploadedBy := "bob", uploadedAt := 30 }

def jobAlice : MergeJob :=
  { id := 1, name := "J", status := .pending, progress := 0, outputFile := none,
    removeSilence := false, outputFormat := "mp3", createdBy := "alice", createdAt := 5,
    completedAt := none }

def store1 : Store :=
  { audioFiles := [fileA, fileB, fileC], mergeJobs := [jobAlice], mergeJobFiles := [] }

/-! ## Claim C7 -/

/-- Claim C7: invoking the update-merge-job operation on a job id with no
corresponding MergeJob record (for example a job deleted while its
background work was still running) is a no-op that returns no record,
raises no error and leaves every record unchanged. -/
theorem c7_update_missing_job_noop (s : Store) (id : Nat) (u : MergeJobUpdate)
    (h : getMergeJob s id = none) : updateMergeJob s id u = (s, none) := by
  unfold getMergeJob at h
  unfold updateMergeJob
  rw [h]

/-- Witness for C7 at a concrete deleted job id. -/
theorem c7_update_missing_job_noop_witness :
    getMergeJob emptyStore 5 = none ∧
    updateMergeJob emptyStore 5
        { status := some .failed, progress := none, outputFile := none, completedAt := none }
      = (emptyStore, none) :=
  ⟨rfl, c7_update_missing_job_noop emptyStore 5
    { status := some .failed, progress := none, outputFile := none, completedAt := none } rfl⟩

/-! ## Claim C9 -/

instance : IsTotal AudioFile (fun a b => b.uploadedAt ≤ a.uploadedAt) :=
  ⟨fun a b => le_total b.uploadedAt a.uploadedAt⟩

instance : IsTrans AudioFile (fun a b => b.uploadedAt ≤ a.uploadedAt) :=
  ⟨fun _ _ _ h1 h2 => le_trans h2 h1⟩

instance : IsTotal MergeJob (fun a b => b.createdAt ≤ a.createdAt) :=
  ⟨fun a b => le_total b.createdAt a.createdAt⟩

instance : IsTrans MergeJob (fun a b => b.createdAt ≤ a.createdAt) :=
  ⟨fun _ _ _ h1 h2 => le_trans h2 h1⟩

/-- The C9 property at one store and one user: each listing returns
exactly that user's records (a permutation of the owner-filtered table,
every element owned by the user) ordered by the respective timestamp
descending. -/
def ownerScopedListsProp (s : Store) (u : String) : Prop :=
  (∀ f ∈ getAudioFiles s (some u), f.uploadedBy = u) ∧
  List.Perm (getAudioFiles s (some u)) (s.audioFiles.filter (fun f => f.uploadedBy == u)) ∧
  (getAudioFiles s (some u)).Sorted (fun a b => b.uploadedAt ≤ a.uploadedAt) ∧
  (∀ j ∈ getMergeJobs s (some u), j.createdBy = u) ∧
  List.Perm (getMergeJobs s (some u)) (s.mergeJobs.filter (fun j => j.createdBy == u)) ∧
  (getMergeJobs s (some u)).Sorted (fun a b => b.createdAt ≤ a.createdAt)

/-- Claim C9: the list-audio-files operation returns exactly the
requesting user's AudioFile records ordered by upload time descending,
and the list-merge-jobs operation returns exactly that user's MergeJob
records ordered by creation time descending, with no record owned by a
different user in either result. -/
theorem c9_owner_scoped_lists (s : Store) (u : String) : ownerScopedListsProp s u := by
  have hpf : List.Perm (getAudioFiles s (some u))
      (s.audioFiles.filter (fun f => f.uploadedBy == u)) :=
    List.perm_insertionSort _ _
  have hpj : List.Perm (getMergeJobs s (some u))
      (s.mergeJobs.filter (fun j => j.createdBy == u)) :=
    List.perm_insertionSort _ _
  refine ⟨?_, hpf, List.sorted_insertionSort _ _, ?_, hpj, List.sorted_insertionSort _ _⟩
  · intro f hf
    have hmem := hpf.mem_iff.mp hf
    have := List.of_mem_filter hmem
    simpa using this
  · intro j hj
    have hmem := hpj.mem_iff.mp hj
    have := List.of_mem_filter hmem
    simpa using this

/-- Witness for C9 at a concrete store holding records of two users. -/
theorem c9_owner_scoped_lists_witness : ownerScopedListsProp store1 "alice" :=
  c9_owner_scoped_lists store1 "alice"

/-! ## Claim C2 -/

/-- Claim C2 counterexample: a job created by "alice" is returned to a
requester "bob" by the get-merge-job route, so the read is not restricted
to `createdBy == requester`. -/
theorem c2_read_ignores_ownership_counterexample :
    getMergeJobRoute store1 "bob" 1 = .ok jobAlice ∧ jobAlice.createdBy ≠ "bob" := by
  refine ⟨rfl, ?_⟩
  decide

/-- The amended C2 property: deletion is owner-restricted and mutates
nothing for a non-owner, while the read-by-id route is independent of
the requester and returns any existing job. -/
def c2AmendedProp (s : Store) (fs : UploadsFs) (id : Nat) (u : String) : Prop :=
  (∀ v : String, getMergeJobRoute s u id = getMergeJobRoute s v id) ∧
  ((deleteMergeJob s fs id u).2.2 = true → ∃ j, getMergeJob s id = some j ∧ j.createdBy = u) ∧
  (∀ j, getMergeJob s id = some j → j.createdBy ≠ u →
    deleteMergeJob s fs id u = (s, fs, false))

/-- Claim C2 (amended): deleting a merge job succeeds only when the job's
createdBy equals the requester and performs no mutation otherwise; the
read-by-id route performs no ownership check and reveals any existing job
to any authenticated requester. -/
theorem c2_ownership_check (s : Store) (fs : UploadsFs) (id : Nat) (u : String) :
    c2AmendedProp s fs id u := by
  refine ⟨fun v => rfl, ?_, ?_⟩
  · intro hdel
    unfold deleteMergeJob at hdel
    cases hfind : s.mergeJobs.find? (fun j => j.id == id) with
    | none => rw [hfind] at hdel; simp at hdel
    | some job =>
      rw [hfind] at hdel
      by_cases hown : job.createdBy == u
      · exact ⟨job, hfind, by simpa using hown⟩
      · simp [hown] at hdel
  · intro j hj hne
    unfold getMergeJob at hj
    unfold deleteMergeJob
    rw [hj]
    have : (j.createdBy == u) = false := by simpa using hne
    simp [this]

/-- Witness for the amended C2 at a concrete non-owner requester. -/
theorem c2_ownership_check_witness : c2AmendedProp store1 [] 1 "bob" :=
  c2_ownership_check store1 [] 1 "bob"

/-! ## Claim C1 -/

/-- A merge request carrying exactly one file id (which moreover resolves
to no AudioFile record) and an unsupported output format. -/
def c1Body : MergeRequestBody :=
  { fileIds := some [7], removeSilence := some false, outputFormat := some "ogg", name := none }

/-- Claim C1 counterexample: the request with exactly 1 file id (an id
resolving to no record, with an output format that is neither mp3 nor
wav) is not rejected, and a MergeJob record is created for it. -/
theorem c1_single_file_creates_job_counterexample :
    (postMerge emptyStore 1 50 "alice" c1Body).response ≠ .badRequest ∧
    (getMergeJob (postMerge emptyStore 1 50 "alice" c1Body).store 1).isSome := by
  decide

/-- The amended C1 property: the only synchronous validation is that the
file id list is present, an array and non-empty; rejection leaves the
store untouched, and any non-empty list — including a singleton, ids
that resolve to no record and unsupported formats — creates a job. -/
def c1AmendedProp (s : Store) (freshId now : Nat) (u : String) (b : MergeRequestBody) : Prop :=
  (mergeRequestValid b = false ↔ (b.fileIds = none ∨ b.fileIds = some [])) ∧
  (mergeRequestValid b = false →
    postMerge s freshId now u b
      = { response := .badRequest, store := s, scheduled := none, trace := [s] }) ∧
  (mergeRequestValid b = true →
    ∃ job, (postMerge s freshId now u b).response = MergeResponse.ok job ∧
      job.id = freshId ∧ job ∈ (postMerge s freshId now u b).store.mergeJobs)

/-- Claim C1 (amended): the create-merge-job request is rejected with a
validation error exactly when the file id list is absent, not an array,
or empty — in which case no MergeJob or MergeJobFile record is created —
and every other request (fewer than 2 entries, unresolved file ids,
unsupported output formats included) creates a MergeJob record. -/
theorem c1_validation_scope (s : Store) (freshId now : Nat) (u : String)
    (b : MergeRequestBody) : c1AmendedProp s freshId now u b := by
  unfold c1AmendedProp mergeRequestValid postMerge
  cases hids : b.fileIds with
  | none => simp
  | some ids =>
    cases ids with
    | nil => simp
    | cons i t =>
      simp only [List.isEmpty_cons, Bool.not_false, if_false]
      refine ⟨by simp, by simp, fun _ => ?_⟩
      refine ⟨_, rfl, rfl, ?_⟩
      unfold addJobFiles createMergeJob
      simp

/-- Witness for the amended C1 at a concrete valid two-file request. -/
theorem c1_validation_scope_witness :
    c1AmendedProp store1 7 50 "alice"
      { fileIds := some [1, 2], removeSilence := some true,
        outputFormat := some "wav", name := some "mix" } :=
  c1_validation_scope store1 7 50 "alice"
    { fileIds := some [1, 2], removeSilence := some true,
      outputFormat := some "wav", name := some "mix" }

/-! ## Claim C10 -/

theorem find?_some_pred {α : Type} (p : α → Bool) {l : List α} {x : α}
    (h : l.find? p = some x) : p x = true :=
  List.find?_some h

theorem find?_cons_true {α : Type} (p : α → Bool) (a : α) (l : List α) (h : p a = true) :
    (a :: l).find? p = some a := by
  rw [List.find?_cons_of_pos]
  exact h

theorem find?_cons_false {α : Type} (p : α → Bool) (a : α) (l : List α) (h : p a = false) :
    (a :: l).find? p = l.find? p := by
  rw [List.find?_cons_of_neg]
  simp [h]

/-- In a table with no duplicate ids, a successful search by id pins down
every row carrying that id. -/
theorem find?_eq_some_unique {l : List AudioFile} {id : Nat} {x : AudioFile}
    (hnd : (l.map (fun f => f.id)).Nodup)
    (hx : l.find? (fun f => f.id == id) = some x) :
    ∀ y ∈ l, y.id = id → y = x := by
  induction l with
  | nil => simp at hx
  | cons a t ih =>
    rw [List.map_cons, List.nodup_cons] at hnd
    intro y hy hyid
    by_cases ha : (a.id == id) = true
    · rw [find?_cons_true (fun f => f.id == id) a t ha] at hx
      have hax : a = x := by injection hx
      rcases List.mem_cons.mp hy with hya | hyt
      · exact hya.trans hax
      · exfalso
        have haid : a.id = id := by simpa using ha
        exact hnd.1 (by
          rw [haid, ← hyid]
          exact List.mem_map.mpr ⟨y, hyt, rfl⟩)
    · rw [find?_cons_false (fun f => f.id == id) a t (by simpa using ha)] at hx
      rcases List.mem_cons.mp hy with hya | hyt
      · exact absurd (hya ▸ hyid) (by simpa using ha)
      · exact ih hnd.2 hx y hyt hyid

/-- `deleteAudioFileRoute` with its let-binding expanded. -/
theorem deleteAudioFileRoute_eq (s : Store) (fs : UploadsFs) (u : String) (id : Nat) :
    deleteAudioFileRoute s fs u id =
      match getAudioFile s id with
      | none => (.notFound, s, fs)
      | some file =>
        if (deleteAudioFile s id u).2
        then (.ok, (deleteAudioFile s id u).1,
          deleteUploadsFile fs ("uploads/" ++ file.filename))
        else (.accessDenied, (deleteAudioFile s id u).1, fs) := rfl

/-- The C10 property at one store, uploads directory, requester and id:
a missing id yields not-found with nothing deleted; a foreign owner
yields access-denied with neither the record nor the backing file
removed; for the owner the record is removed and only then the backing
file; the backing file is never touched unless the record deletion
succeeded. -/
def c10Prop (s : Store) (fs : UploadsFs) (u : String) (id : Nat) : Prop :=
  (getAudioFile s id = none → deleteAudioFileRoute s fs u id = (.notFound, s, fs)) ∧
  (∀ f, getAudioFile s id = some f → f.uploadedBy ≠ u →
    deleteAudioFileRoute s fs u id = (.accessDenied, s, fs)) ∧
  (∀ f, getAudioFile s id = some f → f.uploadedBy = u →
    (deleteAudioFileRoute s fs u id).1 = .ok ∧
    getAudioFile (deleteAudioFileRoute s fs u id).2.1 id = none ∧
    (deleteAudioFileRoute s fs u id).2.2 = deleteUploadsFile fs ("uploads/" ++ f.filename)) ∧
  ((deleteAudioFileRoute s fs u id).1 ≠ .ok → (deleteAudioFileRoute s fs u id).2.2 = fs)

/-- Claim C10: for every delete-audio-file request, a missing id gives
not-found (404) and deletes nothing; a file owned by a different user
gives access-denied (403) and removes neither the record nor the backing
file; and the backing file on disk is removed only after the record
deletion succeeded for the owner. -/
theorem c10_delete_audio_file_route (s : Store) (fs : UploadsFs) (u : String) (id : Nat)
    (hnd : (s.audioFiles.map (fun f => f.id)).Nodup) : c10Prop s fs u id := by
  refine ⟨?_, ?_, ?_, ?_⟩
  · intro h
    rw [deleteAudioFileRoute_eq, h]
  · intro f hf hne
    have hf' : s.audioFiles.find? (fun g => g.id == id) = some f := hf
    have huniq := find?_eq_some_unique hnd hf'
    have hmiss : ∀ g ∈ s.audioFiles, ¬(g.id == id && g.uploadedBy == u) = true := by
      intro g hg hgp
      have hsplit := (Bool.and_eq_true _ _).mp hgp
      have h1 : g.id = id := by simpa using hsplit.1
      have h2 : g.uploadedBy = u := by simpa using hsplit.2
      exact hne ((huniq g hg h1) ▸ h2)
    have hhit : s.audioFiles.filter (fun g => g.id == id && g.uploadedBy == u) = [] :=
      List.filter_eq_nil_iff.mpr hmiss
    have hkeep : s.audioFiles.filter (fun g => !(g.id == id && g.uploadedBy == u))
        = s.audioFiles :=
      List.filter_eq_self.mpr fun g hg => by
        have h := hmiss g hg
        cases hb : (g.id == id && g.uploadedBy == u) with
        | true => exact absurd hb h
        | false => rw [Bool.not_false]
    have hdel : deleteAudioFile s id u = (s, false) := by
      unfold deleteAudioFile
      rw [hhit, hkeep]
      rfl
    rw [deleteAudioFileRoute_eq, hf, hdel]
    rfl
  · intro f hf hown
    have hf' : s.audioFiles.find? (fun g => g.id == id) = some f := hf
    have hmem : f ∈ s.audioFiles := List.mem_of_find?_eq_some hf'
    have hfid : (f.id == id) = true := find?_some_pred (fun g : AudioFile => g.id == id) hf'
    have hpf : (f.id == id && f.uploadedBy == u) = true := by
      simp [hfid, hown]
    have hhit : f ∈ s.audioFiles.filter (fun g => g.id == id && g.uploadedBy == u) :=
      List.mem_filter.mpr ⟨hmem, hpf⟩
    have hr2 : (deleteAudioFile s id u).2 = true := by
      unfold deleteAudioFile
      dsimp only
      cases hh : s.audioFiles.filter (fun g => g.id == id && g.uploadedBy == u) with
      | nil => rw [hh] at hhit; exact absurd hhit (List.not_mem_nil f)
      | cons b l => rfl
    have huniq := find?_eq_some_unique hnd hf'
    have hgone : ((deleteAudioFile s id u).1).audioFiles.find? (fun g => g.id == id) = none := by
      rw [List.find?_eq_none]
      intro g hg
      have hgmem := List.mem_filter.mp hg
      intro hgid
      have hgeq : g = f := huniq g hgmem.1 (by simpa using hgid)
      rw [hgeq, hpf] at hgmem
      simp at hgmem
    refine ⟨?_, ?_, ?_⟩
    · rw [deleteAudioFileRoute_eq, hf]
      dsimp only
      rw [if_pos hr2]
    · rw [deleteAudioFileRoute_eq, hf]
      dsimp only
      rw [if_pos hr2]
      exact hgone
    · rw [deleteAudioFileRoute_eq, hf]
      dsimp only
      rw [if_pos hr2]
  · intro hnok
    rw [deleteAudioFileRoute_eq] at hnok ⊢
    cases hf : getAudioFile s id with
    | none => rfl
    | some f =>
      rw [hf] at hnok
      dsimp only at hnok ⊢
      by_cases hdel : (deleteAudioFile s id u).2 = true
      · rw [if_pos hdel] at hnok
        exact absurd rfl hnok
      · rw [if_neg hdel]

/-- Witness for C10 at a concrete store with files of two owners. -/
theorem c10_delete_audio_file_route_witness :
    c10Prop store1 ["uploads/a.mp3", "uploads/c.mp3"] "bob" 3 :=
  c10_delete_audio_file_route store1 ["uploads/a.mp3", "uploads/c.mp3"] "bob" 3 (by decide)

/-! ## Claim C4 -/

/-- The C4 property: a valid request is answered with the freshly created
job in `pending` status, the stored row is still `pending` when the
response is produced, and the encoding work is only scheduled (captured
in the `setImmediate` payload), not executed. -/
def c4Prop (s : Store) (freshId now : Nat) (u : String) (b : MergeRequestBody)
    (ids : List Nat) : Prop :=
  ∃ job, (postMerge s freshId now u b).response = MergeResponse.ok job ∧
    job.status = .pending ∧
    getMergeJob (postMerge s freshId now u b).store job.id = some job ∧
    (postMerge s freshId now u b).scheduled = some { jobId := job.id, fileIds := ids }

/-- Claim C4: every valid create-merge-job request returns a job record
whose status is pending without any encoding work having run; the
pending → processing transition and the encoding happen only in the
separately scheduled background execution. -/
theorem c4_pending_response_schedules_background (s : Store) (freshId now : Nat) (u : String)
    (b : MergeRequestBody) (ids : List Nat)
    (hids : b.fileIds = some ids) (hne : ids ≠ [])
    (hfresh : ∀ j ∈ s.mergeJobs, j.id ≠ freshId) :
    c4Prop s freshId now u b ids := by
  have hemp : ids.isEmpty = false := by
    cases ids with
    | nil => exact absurd rfl hne
    | cons a t => rfl
  unfold c4Prop postMerge
  rw [hids]
  dsimp only
  rw [hemp]
  simp only [Bool.false_eq_true, if_false]
  refine ⟨_, rfl, rfl, ?_, rfl⟩
  show getMergeJob (addJobFiles (createMergeJob s freshId now _ .pending _ _ u).1 _ ids) _ = _
  have hpres : ∀ t : Store, ∀ a bs x, getMergeJob (addJobFiles t a bs) x = getMergeJob t x :=
    fun t a bs x => rfl
  rw [hpres]
  unfold getMergeJob createMergeJob
  exact find?_append_fresh _ _ _
    (fun a ha => by simpa using hfresh a ha)
    (by simp [mkMergeJob])

/-- A valid two-file merge request used by the C4 witness. -/
def c4Body : MergeRequestBody :=
  { fileIds := some [1, 2], removeSilence := some false, outputFormat := some "mp3",
    name := some "Mix" }

/-- Witness for C4 at a concrete valid request. -/
theorem c4_pending_response_schedules_background_witness :
    c4Prop store1 7 50 "alice" c4Body [1, 2] :=
  c4_pending_response_schedules_background store1 7 50 "alice" c4Body [1, 2]
    rfl (by decide) (by decide)

/-! ## Claim C8 -/

/-- A valid two-file merge request used by the C8 theorems. -/
def c8Body : MergeRequestBody :=
  { fileIds := some [1, 2], removeSilence := some false, outputFormat := some "mp3",
    name := some "m" }

/-- Claim C8 counterexample: among the store states observable during the
merge handler's run there is one in which the MergeJob record exists
while its set of MergeJobFile links is empty — the job row and the link
rows are inserted by two separate, non-transactional calls. -/
theorem c8_job_without_links_counterexample :
    ((postMerge emptyStore 1 50 "alice" c8Body).trace.any
      (fun t => (getMergeJob t 1).isSome && (linksOf t 1).isEmpty)) = true := by
  decide

/-- The links a job gains from one `addJobFiles` call, in input order. -/
theorem linksOf_addJobFiles (t : Store) (jobId : Nat) (ids : List Nat) :
    linksOf (addJobFiles t jobId ids) jobId = linksOf t jobId ++ ids := by
  unfold linksOf addJobFiles
  dsimp only
  rw [List.filter_append, List.map_append]
  congr 1
  rw [List.filter_map]
  have : ((fun l : MergeJobFile => l.jobId == jobId) ∘
      fun fid => { jobId := jobId, audioFileId := fid : MergeJobFile }) = fun _ => true := by
    funext fid
    simp [Function.comp]
  rw [this, List.filter_true, List.map_map]
  have hcomp : ((fun l : MergeJobFile => l.audioFileId) ∘
      fun fid => { jobId := jobId, audioFileId := fid : MergeJobFile }) = fun x : Nat => x := by
    funext x
    rfl
  rw [hcomp]
  exact List.map_id _

/-- The amended C8 property: the handler's trace is exactly the initial
store, an intermediate store after the job insert, and the final store
after the link insert; in the intermediate store the job exists with no
links, and in the final store its links are the complete input id list
in order. -/
def c8AmendedProp (s : Store) (freshId now : Nat) (u : String) (b : MergeRequestBody)
    (ids : List Nat) : Prop :=
  ∃ s1, (postMerge s freshId now u b).trace = [s, s1, (postMerge s freshId now u b).store] ∧
    (getMergeJob s1 freshId).isSome ∧
    linksOf s1 freshId = [] ∧
    linksOf (postMerge s freshId now u b).store freshId = ids

/-- Claim C8 (amended): the MergeJob record and its MergeJobFile links
are created by two separate sequential inserts rather than atomically,
so there is an observable intermediate outcome in which the MergeJob
exists without any file links; when the request completes, the links are
the complete ordered input list. -/
theorem c8_two_step_creation (s : Store) (freshId now : Nat) (u : String)
    (b : MergeRequestBody) (ids : List Nat)
    (hids : b.fileIds = some ids) (hne : ids ≠ [])
    (hfresh : ∀ j ∈ s.mergeJobs, j.id ≠ freshId)
    (hfreshL : ∀ l ∈ s.mergeJobFiles, l.jobId ≠ freshId) :
    c8AmendedProp s freshId now u b ids := by
  have hemp : ids.isEmpty = false := by
    cases ids with
    | nil => exact absurd rfl hne
    | cons a t => rfl
  have hnolinks : ∀ t : Store, t.mergeJobFiles = s.mergeJobFiles → linksOf t freshId = [] := by
    intro t ht
    unfold linksOf
    rw [ht]
    rw [List.filter_eq_nil_iff.mpr (fun l hl => by simpa using hfreshL l hl)]
    rfl
  unfold c8AmendedProp postMerge
  rw [hids]
  dsimp only
  rw [hemp]
  simp only [Bool.false_eq_true, if_false]
  refine ⟨_, rfl, ?_, ?_, ?_⟩
  · unfold getMergeJob createMergeJob
    dsimp only
    rw [find?_append_fresh _ _ _
      (fun a ha => by simpa using hfresh a ha)
      (by simp [mkMergeJob])]
    rfl
  · exact hnolinks _ rfl
  · have hjid : (createMergeJob s freshId now (strOrDefault b.name "Untitled Merge")
        JobStatus.pending (b.removeSilence.getD false) (strOrDefault b.outputFormat "mp3")
        u).2.id = freshId := rfl
    rw [hjid, linksOf_addJobFiles,
      hnolinks (createMergeJob s freshId now (strOrDefault b.name "Untitled Merge")
        JobStatus.pending (b.removeSilence.getD false) (strOrDefault b.outputFormat "mp3")
        u).1 rfl]
    rfl

/-- Witness for the amended C8 at a concrete valid request. -/
theorem c8_two_step_creation_witness : c8AmendedProp store1 7 50 "alice" c8Body [1, 2] :=
  c8_two_step_creation store1 7 50 "alice" c8Body [1, 2] rfl (by decide) (by decide) (by decide)

/-! ## Claim C3 -/

theorem foldl_reportEvents (reports : List Rat) (j : MergeJob) :
    (reports.map BgEvent.reportProgress).foldl (fun x e => applyUpd e x) j
      = { j with progress := (reports.map floorPct).getLastD j.progress } := by
  rw [List.foldl_map]
  exact foldl_reportUpd reports j

/-- Closed form of the job rows observed along a successful background
run. -/
theorem jobScanl_success (reports : List Rat) (outName : String) (now : Nat) (j0 : MergeJob) :
    (bgEvents outName now (.success reports)).scanl (fun x e => applyUpd e x) j0
      = j0 :: ({ j0 with status := .processing } ::
          reports.map (fun p => { j0 with status := .processing, progress := floorPct p })
          ++ [{ j0 with
                status := .completed
                progress := 100
                outputFile := some outName
                completedAt := some now }]) := by
  show (BgEvent.setProcessing ::
      (reports.map BgEvent.reportProgress ++ [BgEvent.setCompleted outName now])).scanl
        (fun x e => applyUpd e x) j0 = _
  rw [List.scanl_cons, scanl_append_split, scanl_reportEvents, foldl_reportEvents]
  rfl

/-- Closed form of the job rows observed along a failing background
run. -/
theorem jobScanl_failure (reports : List Rat) (outName : String) (now : Nat) (j0 : MergeJob) :
    (bgEvents outName now (.failure reports)).scanl (fun x e => applyUpd e x) j0
      = j0 :: ({ j0 with status := .processing } ::
          reports.map (fun p => { j0 with status := .processing, progress := floorPct p })
          ++ [{ j0 with
                status := .failed
                progress := (reports.map floorPct).getLastD j0.progress }]) := by
  show (BgEvent.setProcessing ::
      (reports.map BgEvent.reportProgress ++ [BgEvent.setFailed])).scanl
        (fun x e => applyUpd e x) j0 = _
  rw [List.scanl_cons, scanl_append_split, scanl_reportEvents, foldl_reportEvents]
  rfl

/-- The C3 record invariant: `outputFile` is non-null exactly on
completion, a completed job carries progress 100 and a completion
timestamp, and a failed job has no output file. -/
def jobC3Inv (j : MergeJob) : Prop :=
  (j.outputFile.isSome ↔ j.status = .completed) ∧
  (j.status = .completed → j.progress = 100 ∧ j.completedAt.isSome) ∧
  (j.status = .failed → j.outputFile = none)

/-- The C3 property at one background run: in every observable store
state the job satisfies the record invariant. -/
def c3Prop (jobId : Nat) (outName : String) (now : Nat) (run : EncoderRun) (s : Store) : Prop :=
  ∀ t ∈ bgObservable jobId outName now run s,
    ∀ j, getMergeJob t jobId = some j → jobC3Inv j

/-- Claim C3: starting from a freshly created job (pending, no output
file), in every store state reachable during its background run the job
satisfies: outputFile is non-null iff status is completed; when status is
completed, progress is exactly 100 and completedAt is set; a failed job
keeps outputFile null. -/
theorem c3_output_iff_completed (jobId : Nat) (outName : String) (now : Nat)
    (run : EncoderRun) (s : Store) (j0 : MergeJob)
    (h : getMergeJob s jobId = some j0)
    (hp : j0.status = .pending) (ho : j0.outputFile = none) :
    c3Prop jobId outName now run s := by
  intro t ht j hj
  have hmem : j ∈ (bgObservable jobId outName now run s).filterMap
      (fun t => getMergeJob t jobId) :=
    List.mem_filterMap.mpr ⟨t, ht, hj⟩
  unfold bgObservable at hmem
  rw [filterMap_lookup_scanl jobId _ s j0 h] at hmem
  cases run with
  | success reports =>
    rw [jobScanl_success] at hmem
    simp only [List.mem_cons, List.mem_append, List.mem_map, List.mem_singleton] at hmem
    rcases hmem with hj0 | (hj1 | ⟨p, hpmem, hjp⟩) | (hjc | hnil)
    · subst hj0
      simp [jobC3Inv, hp, ho]
    · subst hj1
      simp [jobC3Inv, ho]
    · subst hjp
      simp [jobC3Inv, ho]
    · subst hjc
      simp [jobC3Inv]
    · exact absurd hnil (List.not_mem_nil j)
  | failure reports =>
    rw [jobScanl_failure] at hmem
    simp only [List.mem_cons, List.mem_append, List.mem_map, List.mem_singleton] at hmem
    rcases hmem with hj0 | (hj1 | ⟨p, hpmem, hjp⟩) | (hjf | hnil)
    · subst hj0
      simp [jobC3Inv, hp, ho]
    · subst hj1
      simp [jobC3Inv, ho]
    · subst hjp
      simp [jobC3Inv, ho]
    · subst hjf
      simp [jobC3Inv, ho]
    · exact absurd hnil (List.not_mem_nil j)

/-- Witness for C3 on a concrete successful run from a fresh pending
job. -/
theorem c3_output_iff_completed_witness :
    c3Prop 1 "out.mp3" 99 (.success [30, 60]) store1 :=
  c3_output_iff_completed 1 "out.mp3" 99 (.success [30, 60]) store1 jobAlice
    (by decide) (by decide) (by decide)

/-! ## Claim C5 -/

theorem floorPct_mono {p q : Rat} (h : p ≤ q) : floorPct p ≤ floorPct q := by
  unfold floorPct
  have := Int.floor_le_floor (α := Rat) h
  omega

theorem floorPct_le_100 {p : Rat} (h : p ≤ 100) : floorPct p ≤ 100 := by
  unfold floorPct
  have h1 : Int.floor p ≤ Int.floor (100 : Rat) := Int.floor_le_floor h
  have h2 : Int.floor (100 : Rat) = 100 := by norm_num
  omega

theorem map_const_replicate {α β : Type} (l : List α) (b : β) :
    l.map (fun _ => b) = List.replicate l.length b := by
  induction l with
  | nil => rfl
  | cons a t ih => simp [List.replicate_succ, ih]

/-- The terminal status a background run ends in. -/
def terminalOf : EncoderRun → JobStatus
  | .success _ => .completed
  | .failure _ => .failed

/-- The C5 property at one background run: the statuses observed for the
job are exactly pending, then processing (once per write of the
processing phase), then the single terminal status — strictly ordered
with the terminal state never left — and the observed progress values
are monotonically non-decreasing. -/
def c5Prop (jobId : Nat) (outName : String) (now : Nat) (run : EncoderRun) (s : Store) : Prop :=
  ((bgObservable jobId outName now run s).filterMap (fun t => getMergeJob t jobId)).map
      (fun j => j.status)
    = .pending :: (List.replicate (run.reports.length + 1) .processing ++ [terminalOf run]) ∧
  List.Chain' (fun a b => a ≤ b)
    (((bgObservable jobId outName now run s).filterMap (fun t => getMergeJob t jobId)).map
      (fun j => j.progress))

/-- Claim C5: for a single merge job started fresh (pending, progress 0),
the observable state transitions are strictly ordered
pending → processing → (completed or failed) with the terminal state
never re-entered, and the observable progress values are monotonically
non-decreasing until the terminal state. -/
theorem c5_ordered_transitions_monotone_progress (jobId : Nat) (outName : String) (now : Nat)
    (run : EncoderRun) (s : Store) (j0 : MergeJob)
    (h : getMergeJob s jobId = some j0)
    (hp : j0.status = .pending) (hpr : j0.progress = 0)
    (hwf : run.wf) : c5Prop jobId outName now run s := by
  unfold c5Prop bgObservable
  rw [filterMap_lookup_scanl jobId _ s j0 h]
  cases run with
  | success reports =>
    obtain ⟨hchain, hbounds⟩ := hwf
    rw [jobScanl_success]
    constructor
    · simp only [List.map_cons, List.map_append, List.map_map, List.map_cons, List.map_nil]
      rw [hp]
      have hcomp : ((fun j : MergeJob => j.status) ∘
          (fun p : Rat => { j0 with status := JobStatus.processing, progress := floorPct p }))
          = fun _ : Rat => JobStatus.processing := funext fun p => rfl
      rw [hcomp, map_const_replicate]
      show _ = JobStatus.pending ::
        (List.replicate (reports.length + 1) JobStatus.processing ++ [JobStatus.completed])
      rw [List.replicate_succ]
    · simp only [List.map_cons, List.map_append, List.map_map, List.map_nil]
      have hcomp2 : ((fun j : MergeJob => j.progress) ∘
          (fun p : Rat => { j0 with status := JobStatus.processing, progress := floorPct p }))
          = fun p : Rat => floorPct p := funext fun p => rfl
      rw [hcomp2]
      show List.Chain' (fun a b => a ≤ b)
        (j0.progress :: j0.progress :: (reports.map floorPct ++ [100]))
      rw [hpr]
      refine List.chain'_cons.mpr ⟨le_refl 0, ?_⟩
      refine List.chain'_cons'.mpr ⟨fun y hy => Nat.zero_le y, ?_⟩
      refine List.Chain'.append ?_ (List.chain'_singleton 100) ?_
      · exact (List.chain'_map floorPct).mpr
          (List.Chain'.imp (fun a b hab => floorPct_mono hab) hchain)
      · intro x hx y hy
        have hy2 := hy
        simp only [List.head?_cons, Option.mem_def, Option.some.injEq] at hy2
        subst hy2
        have hxmem : x ∈ reports.map floorPct := List.mem_of_mem_getLast? hx
        rcases List.mem_map.mp hxmem with ⟨p, hpmem, rfl⟩
        exact floorPct_le_100 (hbounds p hpmem).2
  | failure reports =>
    obtain ⟨hchain, hbounds⟩ := hwf
    rw [jobScanl_failure]
    constructor
    · simp only [List.map_cons, List.map_append, List.map_map, List.map_nil]
      rw [hp]
      have hcomp : ((fun j : MergeJob => j.status) ∘
          (fun p : Rat => { j0 with status := JobStatus.processing, progress := floorPct p }))
          = fun _ : Rat => JobStatus.processing := funext fun p => rfl
      rw [hcomp, map_const_replicate]
      show _ = JobStatus.pending ::
        (List.replicate (reports.length + 1) JobStatus.processing ++ [JobStatus.failed])
      rw [List.replicate_succ]
    · simp only [List.map_cons, List.map_append, List.map_map, List.map_nil]
      have hcomp2 : ((fun j : MergeJob => j.progress) ∘
          (fun p : Rat => { j0 with status := JobStatus.processing, progress := floorPct p }))
          = fun p : Rat => floorPct p := funext fun p => rfl
      rw [hcomp2]
      show List.Chain' (fun a b => a ≤ b)
        (j0.progress :: j0.progress ::
          (reports.map floorPct ++ [(reports.map floorPct).getLastD j0.progress]))
      rw [hpr]
      refine List.chain'_cons.mpr ⟨le_refl 0, ?_⟩
      refine List.chain'_cons'.mpr ⟨fun y hy => Nat.zero_le y, ?_⟩
      refine List.Chain'.append ?_ (List.chain'_singleton _) ?_
      · exact (List.chain'_map floorPct).mpr
          (List.Chain'.imp (fun a b hab => floorPct_mono hab) hchain)
      · intro x hx y hy
        have hy2 := hy
        simp only [List.head?_cons, Option.mem_def, Option.some.injEq] at hy2
        subst hy2
        have hx2 : (reports.map floorPct).getLast? = some x := Option.mem_def.mp hx
        rw [List.getLastD_eq_getLast?, hx2]
        exact le_refl x

/-- A concrete well-formed encoder run for the C5 witness. -/
theorem sampleRunWf : (EncoderRun.success [30, 60]).wf := by
  constructor
  · exact List.chain'_cons.mpr ⟨by norm_num, List.chain'_singleton _⟩
  · intro p hp
    simp only [EncoderRun.reports, List.mem_cons, List.not_mem_nil, or_false] at hp
    rcases hp with rfl | rfl
    · constructor <;> norm_num
    · constructor <;> norm_num

/-- Witness for C5 on a concrete successful run from a fresh pending
job. -/
theorem c5_ordered_transitions_monotone_progress_witness :
    c5Prop 1 "out.mp3" 99 (.success [30, 60]) store1 :=
  c5_ordered_transitions_monotone_progress 1 "out.mp3" 99 (.success [30, 60]) store1 jobAlice
    (by decide) (by decide) (by decide) sampleRunWf

/-! ## Claim C6 -/

/-- Claim C6: for every background run whose encoding throws, the caught
exception is converted into a status update: the job ends with status
failed, its progress left at the last reported (floored) value, and its
output file unchanged (null for a fresh job); `runMergeBackground`
always yields a resulting store, so the exception never escapes the
background task. -/
theorem c6_failure_sets_failed_keeps_progress (jobId : Nat) (outName : String) (now : Nat)
    (reports : List Rat) (s : Store) (j0 : MergeJob)
    (h : getMergeJob s jobId = some j0) :
    ∃ jf, getMergeJob (runMergeBackground jobId outName now (.failure reports) s) jobId
        = some jf ∧
      jf.status = .failed ∧
      jf.progress = (reports.map floorPct).getLastD j0.progress ∧
      jf.outputFile = j0.outputFile ∧
      jf.completedAt = j0.completedAt := by
  unfold runMergeBackground runMergeBody
  dsimp only
  have h1 := getMergeJob_after_event s jobId .setProcessing j0 h
  have h2 := getMergeJob_after_foldl jobId reports _ _ h1
  have h3 := getMergeJob_after_event _ jobId .setFailed _ h2
  refine ⟨_, h3, ?_, ?_, ?_, ?_⟩
  · rw [foldl_reportUpd]
    rfl
  · rw [foldl_reportUpd]
    rfl
  · rw [foldl_reportUpd]
    rfl
  · rw [foldl_reportUpd]
    rfl

/-- Witness for C6 on a concrete failing run with two progress reports. -/
theorem c6_failure_sets_failed_keeps_progress_witness :
    ∃ jf, getMergeJob (runMergeBackground 1 "out.mp3" 99 (.failure [10, 55]) store1) 1
        = some jf ∧
      jf.status = .failed ∧
      jf.progress = (List.map floorPct [10, 55]).getLastD jobAlice.progress ∧
      jf.outputFile = jobAlice.outputFile ∧
      jf.completedAt = jobAlice.completedAt :=
  c6_failure_sets_failed_keeps_progress 1 "out.mp3" 99 [10, 55] store1 jobAlice (by decide)
